import Mathlib

/-!
A verification development for the signup-sequencer query surface and
startup recovery logic (src/app.rs), shallowly embedded in Lean.

Commitments and hashes (the Rust `Hash` / `Field` 256-bit values) are
modelled as `Nat`; the Poseidon hash primitive is an abstract parameter
`h : Nat → Nat → Nat`.  Database and lock calls are modelled by explicit
oracle records saying whether each call succeeds, and each operation
returns, besides its result, the list of observable side-effecting calls
it performed, in order.
-/

/-- Branch of a Merkle inclusion proof, as in the semaphore crate:
`left s` means the current node is a left child and `s` is its right
sibling hash; `right s` the mirror case. -/
inductive Branch where
  | left (sibling : Nat)
  | right (sibling : Nat)
deriving DecidableEq, Repr

/-- `Iterator::position`: index of the first element equal to `target`. -/
def positionOf (target : Nat) : List Nat → Option Nat
  | [] => none
  | x :: xs => if x = target then some 0 else (positionOf target xs).map (· + 1)

/-- Modelled from the spec: one level of Merkle hashing — adjacent pairs of
nodes are combined with `h` (§3: fixed-depth binary tree). -/
def hashLevel (h : Nat → Nat → Nat) : List Nat → List Nat
  | a :: b :: rest => h a b :: hashLevel h rest
  | l => l

/-- Modelled from the spec: the root of a depth-`d` Merkle tree with the
given leaf level, obtained by `d` rounds of pairwise hashing. -/
def rootOf (h : Nat → Nat → Nat) : Nat → List Nat → Nat
  | 0, l => l.headD 0
  | d + 1, l => rootOf h d (hashLevel h l)

/-- Modelled from the spec: the sibling path for leaf `i` of a depth-`d`
tree (§3: `proof(index)` yields a sequence of sibling hashes tagged
Left/Right). -/
def proofAux (h : Nat → Nat → Nat) : Nat → List Nat → Nat → List Branch
  | 0, _, _ => []
  | d + 1, l, i =>
      (if i % 2 = 0 then Branch.left (l.getD (i + 1) 0)
       else Branch.right (l.getD (i - 1) 0))
        :: proofAux h d (hashLevel h l) (i / 2)

/-- Folding one proof branch into the running hash, as in the semaphore
crate `verify`. -/
def applyBranch (h : Nat → Nat → Nat) (acc : Nat) : Branch → Nat
  | .left s => h acc s
  | .right s => h s acc

/-- Recompute the root implied by a leaf value and a sibling path. -/
def computeRootFromProof (h : Nat → Nat → Nat) (leaf : Nat) (pf : List Branch) : Nat :=
  pf.foldl (applyBranch h) leaf

/-- Modelled from the spec: the in-memory Merkle tree of §3 — a fixed
depth and the sequence of values returned by `leaves()`. -/
structure MerkleTree where
  depth : Nat
  leaves : List Nat
deriving DecidableEq, Repr

/-- A tree whose leaf level has the advertised size `2 ^ depth`. -/
def MerkleTree.wellFormed (t : MerkleTree) : Prop :=
  t.leaves.length = 2 ^ t.depth

/-- `root()` of the tree. -/
def MerkleTree.root (h : Nat → Nat → Nat) (t : MerkleTree) : Nat :=
  rootOf h t.depth t.leaves

/-- `proof(index)`: `some` path when the index is a valid leaf index,
`none` otherwise (semaphore returns `None` for an out-of-range index). -/
def MerkleTree.proof (h : Nat → Nat → Nat) (t : MerkleTree) (i : Nat) : Option (List Branch) :=
  if i < 2 ^ t.depth then some (proofAux h t.depth t.leaves i) else none

/-- `verify(value, proof)`: the recomputed root matches `root()`. -/
def MerkleTree.verify (h : Nat → Nat → Nat) (t : MerkleTree) (value : Nat)
    (pf : List Branch) : Bool :=
  computeRootFromProof h value pf = t.root h

/-- Modelled from the spec: `TreeState` (src/identity_tree.rs is not part
of the source bundle) — the pair `(merkle_tree, next_leaf)` of §3. -/
structure TreeState where
  merkle_tree : MerkleTree
  next_leaf : Nat
deriving DecidableEq, Repr

/-- Modelled from the spec: `TreeState::new(depth, initial_leaf_value)` —
on construction `next_leaf = 0` and every one of the `2 ^ depth` leaves
is `initial_leaf_value` (§4.B). -/
def TreeState.new (depth initial_leaf_value : Nat) : TreeState :=
  { merkle_tree := { depth := depth, leaves := List.replicate (2 ^ depth) initial_leaf_value }
    next_leaf := 0 }

/-- Modelled from the spec: the error variants of `server::Error`
surfaced by the two query operations (src/server.rs is not part of the
source bundle; the variants are the ones `app.rs` constructs). -/
inductive ServerError where
  | invalidGroupId
  | invalidCommitment
  | unreducedCommitment
  | duplicateCommitment
  | identityCommitmentNotFound
  | rootMismatch
  | indexOutOfBounds
  | lockTimeout
  | dbError
deriving DecidableEq, Repr

/-- Modelled from the spec: the HTTP status code §7 assigns to each error
(codes the spec does not fix are `none`). -/
def serverErrorCode : ServerError → Option Nat
  | .invalidGroupId => some 400
  | .invalidCommitment => some 400
  | .unreducedCommitment => some 400
  | .duplicateCommitment => some 409
  | .identityCommitmentNotFound => some 404
  | .rootMismatch => some 409
  | .lockTimeout => some 500
  | .indexOutOfBounds => none
  | .dbError => none

/-- The success payload of `inclusion_proof` (src/app.rs lines 28-31). -/
inductive InclusionProofResponse where
  | proof (root : Nat) (pf : List Branch)
  | pending
deriving DecidableEq, Repr

/-- `ToResponseCode for InclusionProofResponse` (src/app.rs lines 33-40):
`Proof` maps to 200 OK, `Pending` to 202 ACCEPTED. -/
def to_response_code : InclusionProofResponse → Nat
  | .proof _ _ => 200
  | .pending => 202

/-- `snark_scalar_field` (src/app.rs lines 147-151): the BN254 scalar
field characteristic `p`. -/
def snark_scalar_field : Nat :=
  21888242871839275222246405745257275088548364400416034343698204186575808495617

/-- The observable side-effecting calls an operation performs, in order. -/
inductive Obs where
  | queryPendingExists
  | readTreeLeaves
  | insertPendingIdentity
  | notifyQueued
deriving DecidableEq, Repr

/-- The state an `App` call can read or mutate: the configured group id,
the initial leaf value, the guarded tree state, and the commitments in
the pending-identities table for the configured group. -/
structure AppState where
  group_id : Nat
  initial_leaf_value : Nat
  tree : TreeState
  pending : List Nat
deriving DecidableEq, Repr

/-- `App::identity_is_reduced` (src/app.rs lines 230-232). -/
def identity_is_reduced (commitment : Nat) : Bool :=
  decide (commitment < snark_scalar_field)

/-- Success flags for the fallible calls `insert_identity` makes: the
`pending_identity_exists` query, the tree read-lock acquisition, and the
`insert_pending_identity` write (each database write is one transaction,
per §5, so a failed write leaves the table unchanged). -/
structure InsertOracles where
  pendingQueryOk : Bool
  lockOk : Bool
  insertOk : Bool
deriving DecidableEq, Repr

/-- `App::insert_identity` (src/app.rs lines 241-296), returning the
resulting state, the trace of observable calls, and the result. -/
def insert_identity (st : AppState) (orc : InsertOracles) (group_id commitment : Nat) :
    AppState × List Obs × Except ServerError Unit :=
  if group_id ≠ st.group_id then
    (st, [], .error .invalidGroupId)
  else if commitment = st.initial_leaf_value then
    (st, [], .error .invalidCommitment)
  else if identity_is_reduced commitment = false then
    (st, [], .error .unreducedCommitment)
  else if orc.pendingQueryOk = false then
    (st, [.queryPendingExists], .error .dbError)
  else if commitment ∈ st.pending then
    (st, [.queryPendingExists], .error .duplicateCommitment)
  else if orc.lockOk = false then
    (st, [.queryPendingExists], .error .lockTimeout)
  else
    match positionOf commitment st.tree.merkle_tree.leaves with
    | some _ => (st, [.queryPendingExists, .readTreeLeaves], .error .duplicateCommitment)
    | none =>
        if orc.insertOk = false then
          (st, [.queryPendingExists, .readTreeLeaves, .insertPendingIdentity], .error .dbError)
        else
          ({ st with pending := commitment :: st.pending },
            [.queryPendingExists, .readTreeLeaves, .insertPendingIdentity, .notifyQueued],
            .ok ())

/-- Success flags for the fallible calls `inclusion_proof` makes, and the
outcome of `identity_manager.assert_valid_root` on the computed root. -/
structure InclusionOracles where
  lockOk : Bool
  rootValid : Bool
  pendingQueryOk : Bool
deriving DecidableEq, Repr

/-- Outcome of `inclusion_proof`: a returned response, a returned error,
or a process-terminating panic (the code panics both on a tree-lock
failure and on a locally non-verifying proof). -/
inductive InclusionOutcome where
  | ok (r : InclusionProofResponse)
  | err (e : ServerError)
  | panicked (msg : String)
deriving DecidableEq, Repr

/-- `App::inclusion_proof` (src/app.rs lines 302-371), returning the
trace of observable calls and the outcome. -/
def inclusion_proof (h : Nat → Nat → Nat) (st : AppState) (orc : InclusionOracles)
    (group_id commitment : Nat) : List Obs × InclusionOutcome :=
  if group_id ≠ st.group_id then
    ([], .err .invalidGroupId)
  else if commitment = st.initial_leaf_value then
    ([], .err .invalidCommitment)
  else if orc.lockOk = false then
    ([], .panicked "Sequencer potentially deadlocked, terminating.")
  else
    match positionOf commitment st.tree.merkle_tree.leaves with
    | some identity_index =>
        match MerkleTree.proof h st.tree.merkle_tree identity_index with
        | none => ([.readTreeLeaves], .err .indexOutOfBounds)
        | some pf =>
            if MerkleTree.verify h st.tree.merkle_tree commitment pf = false then
              ([.readTreeLeaves], .panicked "Proof does not verify locally.")
            else if orc.rootValid = false then
              ([.readTreeLeaves], .err .rootMismatch)
            else
              ([.readTreeLeaves], .ok (.proof (MerkleTree.root h st.tree.merkle_tree) pf))
    | none =>
        if orc.pendingQueryOk = false then
          ([.readTreeLeaves, .queryPendingExists], .err .dbError)
        else if commitment ∈ st.pending then
          ([.readTreeLeaves, .queryPendingExists], .ok .pending)
        else
          ([.readTreeLeaves, .queryPendingExists], .err .identityCommitmentNotFound)

/-- Outcome of one `chain_subscriber.process_initial_events()` attempt. -/
inductive SubResult where
  | ok
  | rootMismatch
  | other (code : Nat)
deriving DecidableEq, Repr

/-- The observable steps `load_initial_events` performs: attempting
`process_initial_events`, `delete_most_recent_cached_events n`, and
`wipe_cache`. -/
inductive RecoveryAction where
  | attempt
  | deleteRecent (n : Nat)
  | wipe
deriving DecidableEq, Repr

/-- The value `load_initial_events` returns. -/
inductive LoadResult where
  | ok
  | rootMismatchErr
  | otherErr (code : Nat)
deriving DecidableEq, Repr

/-- The retry loop of `App::load_initial_events` (src/app.rs lines
186-227): `outcome i` is the result of the `i`-th call to
`process_initial_events`, `step` is `cache_recovery_step_size`, and
`count` is the running `root_mismatch_count`.  Returns the ordered
actions performed and the result of the function. -/
def load_loop (outcome : Nat → SubResult) (step idx count : Nat) :
    List RecoveryAction × LoadResult :=
  let recovery : List RecoveryAction :=
    if count = 1 then [.deleteRecent step]
    else if count = 2 then [.wipe]
    else []
  if _h3 : 3 ≤ count then
    ([], .rootMismatchErr)
  else
    match outcome idx with
    | .rootMismatch =>
        let rest := load_loop outcome step (idx + 1) (count + 1)
        (recovery ++ .attempt :: rest.1, rest.2)
    | .other e => (recovery ++ [.attempt], .otherErr e)
    | .ok => (recovery ++ [.attempt], .ok)
termination_by 3 - count
decreasing_by omega

/-- `App::load_initial_events` (src/app.rs lines 181-228), starting with
`root_mismatch_count = 0`. -/
def load_initial_events (outcome : Nat → SubResult) (step : Nat) :
    List RecoveryAction × LoadResult :=
  load_loop outcome step 0 0

/-- The startup actions `App::new` can perform after the connection and
construction phase (src/app.rs lines 164-177). -/
inductive StartupStep where
  | checkHealth
  | subscriberStart
  | committerStart
deriving DecidableEq, Repr

/-- The value the startup phase of `App::new` produces: a fully
constructed app, or an error message. -/
inductive StartupResult where
  | ok
  | errMsg (msg : String)
deriving DecidableEq, Repr

/-- The `select!` between `load_initial_events` and `await_shutdown` in
`App::new` (src/app.rs lines 164-178) and the calls that follow it.
`shutdownWinsSelect` says which future completes first; the select arm
for `load_initial_events` discards the result of that call (the arm
binds `_` and has an empty body, line 165), so the steps after the
select do not depend on it. -/
def app_new_startup (shutdownWinsSelect : Bool) (loadResult : LoadResult) :
    List StartupStep × StartupResult :=
  if shutdownWinsSelect then
    ([], .errMsg "Interrupted")
  else
    match loadResult with
    | _ => ([.checkHealth, .subscriberStart, .committerStart], .ok)

/-- The tree constructed at startup in `App::new` (src/app.rs lines
126-132): depth is `identity_manager.tree_depth() + 1`, initial leaf is
`identity_manager.initial_leaf_value()`. -/
def app_new_tree_state (tree_depth initial_leaf_value : Nat) : TreeState :=
  TreeState.new (tree_depth + 1) initial_leaf_value

/-- The fresh tree that replaces the shared tree state on every
`RootMismatch` retry inside `load_initial_events` (src/app.rs lines
206-213). -/
def retry_tree_state (tree_depth initial_leaf_value : Nat) : TreeState :=
  TreeState.new (tree_depth + 1) initial_leaf_value

/-- Oracle record with every fallible call succeeding. -/
def allOkInsert : InsertOracles :=
  { pendingQueryOk := true, lockOk := true, insertOk := true }

/-- Oracle record for `inclusion_proof` with every call succeeding and a
valid root. -/
def allOkInclusion : InclusionOracles :=
  { lockOk := true, rootValid := true, pendingQueryOk := true }

/-- A concrete hash function instantiating the abstract Poseidon
parameter in witnesses. -/
def hashW (a b : Nat) : Nat :=
  2 * a + 3 * b + 1

/-- A concrete state in which commitment 5 sits both in the pending
table and in the tree. -/
def stBoth : AppState :=
  { group_id := 1, initial_leaf_value := 0
    tree := { merkle_tree := { depth := 2, leaves := [5, 0, 0, 0] }, next_leaf := 1 }
    pending := [5] }

/-- A concrete state in which commitment 7 is the sole tree leaf and the
pending table is empty. -/
def stTreeOnly : AppState :=
  { group_id := 1, initial_leaf_value := 0
    tree := { merkle_tree := { depth := 2, leaves := [7, 0, 0, 0] }, next_leaf := 1 }
    pending := [] }

theorem headD_eq_getD (l : List Nat) : l.headD 0 = l.getD 0 0 := by
  cases l <;> rfl

theorem hashLevel_length (h : Nat → Nat → Nat) :
    ∀ (n : Nat) (l : List Nat), l.length = 2 * n → (hashLevel h l).length = n := by
  intro n
  induction n with
  | zero =>
      intro l hl
      have : l = [] := List.eq_nil_of_length_eq_zero (by omega)
      subst this
      rfl
  | succ m ih =>
      intro l hl
      cases l with
      | nil => simp at hl
      | cons a l2 =>
          cases l2 with
          | nil => simp at hl; omega
          | cons b rest =>
              have hr : rest.length = 2 * m := by simp at hl; omega
              simp [hashLevel, ih rest hr]

theorem hashLevel_getD (h : Nat → Nat → Nat) :
    ∀ (i n : Nat) (l : List Nat), l.length = 2 * n → i < n →
      (hashLevel h l).getD i 0 = h (l.getD (2 * i) 0) (l.getD (2 * i + 1) 0) := by
  intro i
  induction i with
  | zero =>
      intro n l hl hi
      cases l with
      | nil => simp at hl; omega
      | cons a l2 =>
          cases l2 with
          | nil => simp at hl; omega
          | cons b rest => simp [hashLevel]
  | succ j ih =>
      intro n l hl hi
      cases l with
      | nil => simp at hl; omega
      | cons a l2 =>
          cases l2 with
          | nil => simp at hl; omega
          | cons b rest =>
              have hr : rest.length = 2 * (n - 1) := by simp at hl; omega
              have hj : j < n - 1 := by omega
              have e1 : 2 * (j + 1) = 2 * j + 1 + 1 := by omega
              have e2 : 2 * (j + 1) + 1 = 2 * j + 1 + 1 + 1 := by omega
              simp only [hashLevel, List.getD_cons_succ, e1, e2]
              exact ih (n - 1) rest hr hj

theorem proof_roundtrip (h : Nat → Nat → Nat) :
    ∀ (d : Nat) (l : List Nat) (i : Nat), l.length = 2 ^ d → i < 2 ^ d →
      computeRootFromProof h (l.getD i 0) (proofAux h d l i) = rootOf h d l := by
  intro d
  induction d with
  | zero =>
      intro l i _ hi
      have : i = 0 := by omega
      subst this
      cases l <;> simp [proofAux, computeRootFromProof, rootOf]
  | succ m ih =>
      intro l i hl hi
      have hlen2 : l.length = 2 * 2 ^ m := by rw [hl]; ring
      have hip : i < 2 * 2 ^ m := by
        have : (2 : Nat) ^ (m + 1) = 2 * 2 ^ m := by ring
        omega
      have hhl : (hashLevel h l).length = 2 ^ m := hashLevel_length h (2 ^ m) l hlen2
      have hi2 : i / 2 < 2 ^ m := by omega
      have hbr : applyBranch h (l.getD i 0)
            (if i % 2 = 0 then Branch.left (l.getD (i + 1) 0)
             else Branch.right (l.getD (i - 1) 0))
          = (hashLevel h l).getD (i / 2) 0 := by
        by_cases hpar : i % 2 = 0
        · have h2i : 2 * (i / 2) = i := by omega
          have h2i1 : 2 * (i / 2) + 1 = i + 1 := by omega
          rw [if_pos hpar]
          simp only [applyBranch,
            hashLevel_getD h (i / 2) (2 ^ m) l hlen2 hi2, h2i, h2i1]
        · have h2i : 2 * (i / 2) = i - 1 := by omega
          have h2i1 : 2 * (i / 2) + 1 = i := by omega
          rw [if_neg hpar]
          simp only [applyBranch,
            hashLevel_getD h (i / 2) (2 ^ m) l hlen2 hi2, h2i, h2i1]
          rw [show i - 1 + 1 = i from by omega]
      simp only [proofAux, computeRootFromProof, List.foldl, rootOf]
      rw [show (List.foldl (applyBranch h) (applyBranch h (l.getD i 0)
            (if i % 2 = 0 then Branch.left (l.getD (i + 1) 0)
             else Branch.right (l.getD (i - 1) 0)))
            (proofAux h m (hashLevel h l) (i / 2)))
          = computeRootFromProof h ((hashLevel h l).getD (i / 2) 0)
              (proofAux h m (hashLevel h l) (i / 2)) by rw [← hbr]; rfl]
      exact ih (hashLevel h l) (i / 2) hhl hi2

theorem verify_proofAux (h : Nat → Nat → Nat) (t : MerkleTree) (i c : Nat)
    (hwf : t.wellFormed) (hi : i < 2 ^ t.depth) (hc : t.leaves.getD i 0 = c) :
    MerkleTree.verify h t c (proofAux h t.depth t.leaves i) = true := by
  simp only [MerkleTree.verify, MerkleTree.root, decide_eq_true_eq]
  rw [← hc]
  exact proof_roundtrip h t.depth t.leaves i hwf hi

theorem positionOf_eq_some {t : Nat} :
    ∀ {l : List Nat} {i : Nat}, positionOf t l = some i → i < l.length ∧ l.getD i 0 = t := by
  intro l
  induction l with
  | nil => intro i hp; simp [positionOf] at hp
  | cons x xs ih =>
      intro i hp
      by_cases hx : x = t
      · simp [positionOf, hx] at hp
        subst hp
        simp [hx]
      · simp [positionOf, hx] at hp
        obtain ⟨j, hj, hji⟩ := hp
        obtain ⟨hlt, hget⟩ := ih hj
        subst hji
        exact ⟨by simpa using Nat.succ_lt_succ hlt, by simpa using hget⟩

theorem positionOf_eq_none {t : Nat} :
    ∀ {l : List Nat}, positionOf t l = none ↔ t ∉ l := by
  intro l
  induction l with
  | nil => simp [positionOf]
  | cons x xs ih =>
      by_cases hx : x = t
      · simp [positionOf, hx]
      · have hx2 : ¬ t = x := fun h => hx h.symm
        simp [positionOf, hx, hx2, ih]

theorem positionOf_eq_some_getD {t : Nat} :
    ∀ {l : List Nat} {i : Nat}, positionOf t l = some i →
      i < l.length ∧ ∀ d, l.getD i d = t := by
  intro l
  induction l with
  | nil => intro i hp; simp [positionOf] at hp
  | cons x xs ih =>
      intro i hp
      by_cases hx : x = t
      · simp [positionOf, hx] at hp
        subst hp
        exact ⟨by simp, fun d => by simp [hx]⟩
      · simp [positionOf, hx] at hp
        obtain ⟨j, hj, hji⟩ := hp
        obtain ⟨hlt, hget⟩ := ih hj
        subst hji
        exact ⟨by simpa using Nat.succ_lt_succ hlt, fun d => by simpa using hget d⟩

theorem getD_mem_take {a : Nat} :
    ∀ {l : List Nat} {i n : Nat}, i < l.length → i < n → l.getD i 0 = a → a ∈ l.take n := by
  intro l
  induction l with
  | nil => intro i n hi _ _; simp at hi
  | cons x xs ih =>
      intro i n hi hn hget
      match i, n with
      | 0, n + 1 =>
          simp at hget
          simp [hget]
      | i + 1, n + 1 =>
          have : a ∈ xs.take n :=
            ih (by simpa using Nat.lt_of_succ_lt_succ hi) (Nat.lt_of_succ_lt_succ hn)
              (by simpa using hget)
          simp [this]


/-- C6: the Merkle tree is always constructed with depth
`identity_manager.tree_depth() + 1` and initial leaf
`identity_manager.initial_leaf_value()`, with `next_leaf = 0` and every
leaf equal to the initial leaf value, both at startup in `App::new` and
for the fresh tree built on every `RootMismatch` retry inside
`load_initial_events`. -/
theorem tree_construction_fresh (tree_depth initial_leaf_value : Nat) :
    app_new_tree_state tree_depth initial_leaf_value
        = retry_tree_state tree_depth initial_leaf_value
    ∧ (app_new_tree_state tree_depth initial_leaf_value).merkle_tree.depth = tree_depth + 1
    ∧ (app_new_tree_state tree_depth initial_leaf_value).next_leaf = 0
    ∧ (app_new_tree_state tree_depth initial_leaf_value).merkle_tree.leaves
        = List.replicate (2 ^ (tree_depth + 1)) initial_leaf_value
    ∧ (app_new_tree_state tree_depth initial_leaf_value).merkle_tree.leaves.all
        (fun x => x = initial_leaf_value) = true := by
  refine ⟨rfl, rfl, rfl, rfl, ?_⟩
  simp [app_new_tree_state, TreeState.new, List.all_eq_true, List.mem_replicate]

/-- C8: if the shutdown signal wins the `select!` before
`load_initial_events` completes, `App::new` returns the error message
"Interrupted" and performs none of the health check, subscriber start or
committer start, whatever `load_initial_events` would have produced. -/
theorem app_new_shutdown_interrupted (loadResult : LoadResult) :
    app_new_startup true loadResult = ([], StartupResult.errMsg "Interrupted") := rfl

/-- C7: `inclusion_proof` with a valid group id and a commitment equal to
`initial_leaf_value` returns `InvalidCommitment` (HTTP 400 per the §7
taxonomy) with an empty call trace — the tree is never consulted — for
every tree state and every oracle. -/
theorem inclusion_proof_initial_leaf_rejected
    (h : Nat → Nat → Nat) (st : AppState) (orc : InclusionOracles) (g : Nat)
    (hg : g = st.group_id) :
    inclusion_proof h st orc g st.initial_leaf_value
        = ([], InclusionOutcome.err ServerError.invalidCommitment)
    ∧ serverErrorCode ServerError.invalidCommitment = some 400 := by
  refine ⟨?_, rfl⟩
  unfold inclusion_proof
  rw [if_neg (by simp [hg]), if_pos rfl]

/-- Witness for C7 at a state whose tree contains a leaf equal to the
initial leaf value. -/
theorem inclusion_proof_initial_leaf_rejected_witness :
    inclusion_proof hashW stTreeOnly allOkInclusion 1 stTreeOnly.initial_leaf_value
      = ([], InclusionOutcome.err ServerError.invalidCommitment) :=
  (inclusion_proof_initial_leaf_rejected hashW stTreeOnly allOkInclusion 1 rfl).1

/-- C5: with a valid group id and a commitment different from the
initial leaf value, `insert_identity` returns `UnreducedCommitment` if
and only if the commitment is `≥ p`. -/
theorem insert_identity_unreduced_iff
    (st : AppState) (orc : InsertOracles) (g c : Nat)
    (hg : g = st.group_id) (hne : c ≠ st.initial_leaf_value) :
    (insert_identity st orc g c).2.2 = Except.error ServerError.unreducedCommitment
      ↔ snark_scalar_field ≤ c := by
  unfold insert_identity
  rw [if_neg (by simp [hg]), if_neg hne]
  by_cases hr : c < snark_scalar_field
  · rw [if_neg (by simp [identity_is_reduced, hr])]
    have hrhs : ¬ snark_scalar_field ≤ c := by omega
    simp only [hrhs, iff_false]
    by_cases h4 : orc.pendingQueryOk = false
    · rw [if_pos h4]; simp
    · rw [if_neg h4]
      by_cases h5 : c ∈ st.pending
      · rw [if_pos h5]; simp
      · rw [if_neg h5]
        by_cases h6 : orc.lockOk = false
        · rw [if_pos h6]; simp
        · rw [if_neg h6]
          rcases hsome : positionOf c st.tree.merkle_tree.leaves with _ | i
          · by_cases h7 : orc.insertOk = false
            · rw [if_pos h7]; simp
            · rw [if_neg h7]; simp
          · simp
  · rw [if_pos (by simp only [identity_is_reduced, decide_eq_false_iff_not]; omega)]
    constructor
    · intro _; omega
    · intro _; rfl

/-- Witness for C5: a commitment exactly equal to `p` is rejected as
unreduced. -/
theorem insert_identity_unreduced_iff_witness :
    (insert_identity stTreeOnly allOkInsert 1 snark_scalar_field).2.2
      = Except.error ServerError.unreducedCommitment :=
  (insert_identity_unreduced_iff stTreeOnly allOkInsert 1 snark_scalar_field rfl
      (by decide)).mpr (Nat.le_refl _)

/-- Counterexample to C1: at a state where the commitment is present in
both the pending table and the tree, with every early check passing,
`insert_identity` returns `DuplicateCommitment` after performing only
the `pending_identity_exists` query — the tree leaves are never
inspected, so the tree check is not performed first. -/
theorem insert_identity_tree_check_not_first :
    (1 : Nat) = stBoth.group_id
    ∧ (5 : Nat) ≠ stBoth.initial_leaf_value
    ∧ identity_is_reduced 5 = true
    ∧ 5 ∈ stBoth.tree.merkle_tree.leaves
    ∧ 5 ∈ stBoth.pending
    ∧ insert_identity stBoth allOkInsert 1 5
        = (stBoth, [Obs.queryPendingExists], Except.error ServerError.duplicateCommitment)
    ∧ Obs.readTreeLeaves ∉ (insert_identity stBoth allOkInsert 1 5).2.1 := by
  refine ⟨rfl, by decide, by decide, by decide, by decide, rfl, by decide⟩

/-- C1 (amended): after the group, initial-leaf and reducedness checks
pass, the duplicate check against `pending_identity_exists` is performed
before the duplicate check against the tree leaves: the pending query is
first in the trace, and `DuplicateCommitment` is returned from whichever
check matches first. -/
theorem insert_identity_checks_pending_before_tree
    (st : AppState) (orc : InsertOracles) (g c : Nat)
    (hg : g = st.group_id) (hne : c ≠ st.initial_leaf_value)
    (hred : identity_is_reduced c = true) (hq : orc.pendingQueryOk = true) :
    (c ∈ st.pending →
      insert_identity st orc g c
        = (st, [Obs.queryPendingExists], Except.error ServerError.duplicateCommitment))
    ∧ (orc.lockOk = true → c ∉ st.pending → c ∈ st.tree.merkle_tree.leaves →
      insert_identity st orc g c
        = (st, [Obs.queryPendingExists, Obs.readTreeLeaves],
            Except.error ServerError.duplicateCommitment)) := by
  constructor
  · intro hp
    unfold insert_identity
    rw [if_neg (by simp [hg]), if_neg hne, if_neg (by simp [hred]),
        if_neg (by simp [hq]), if_pos hp]
  · intro hl hp hm
    unfold insert_identity
    rw [if_neg (by simp [hg]), if_neg hne, if_neg (by simp [hred]),
        if_neg (by simp [hq]), if_neg hp, if_neg (by simp [hl])]
    rcases hsome : positionOf c st.tree.merkle_tree.leaves with _ | i
    · exact absurd (positionOf_eq_none.mp hsome) (by simp [hm])
    · rfl

/-- Witness for the amended C1: the pending-table match is reported with
only the pending query in the trace. -/
theorem insert_identity_checks_pending_before_tree_witness :
    insert_identity stBoth allOkInsert 1 5
      = (stBoth, [Obs.queryPendingExists], Except.error ServerError.duplicateCommitment) :=
  (insert_identity_checks_pending_before_tree stBoth allOkInsert 1 5 rfl (by decide)
      (by decide) rfl).1 (by decide)

/-- C10: `insert_identity` is atomic on error — every call that returns
an error leaves the state (pending table and tree) unchanged and sends
no committer notification. -/
theorem insert_identity_atomic_on_error
    (st : AppState) (orc : InsertOracles) (g c : Nat) (e : ServerError)
    (he : (insert_identity st orc g c).2.2 = Except.error e) :
    (insert_identity st orc g c).1 = st
    ∧ Obs.notifyQueued ∉ (insert_identity st orc g c).2.1 := by
  unfold insert_identity at he ⊢
  by_cases h1 : g ≠ st.group_id
  · rw [if_pos h1]; exact ⟨rfl, by simp⟩
  · rw [if_neg h1] at he ⊢
    by_cases h2 : c = st.initial_leaf_value
    · rw [if_pos h2]; exact ⟨rfl, by simp⟩
    · rw [if_neg h2] at he ⊢
      by_cases h3 : identity_is_reduced c = false
      · rw [if_pos h3]; exact ⟨rfl, by simp⟩
      · rw [if_neg h3] at he ⊢
        by_cases h4 : orc.pendingQueryOk = false
        · rw [if_pos h4]; exact ⟨rfl, by simp⟩
        · rw [if_neg h4] at he ⊢
          by_cases h5 : c ∈ st.pending
          · rw [if_pos h5]; exact ⟨rfl, by simp⟩
          · rw [if_neg h5] at he ⊢
            by_cases h6 : orc.lockOk = false
            · rw [if_pos h6]; exact ⟨rfl, by simp⟩
            · rw [if_neg h6] at he ⊢
              rcases hsome : positionOf c st.tree.merkle_tree.leaves with _ | i
              · rw [hsome] at he
                by_cases h7 : orc.insertOk = false
                · rw [if_pos h7]; exact ⟨rfl, by simp⟩
                · rw [if_neg h7] at he
                  exact Except.noConfusion he
              · exact ⟨rfl, by simp⟩

/-- Witness for C10 at a call rejected for its group id. -/
theorem insert_identity_atomic_on_error_witness :
    (insert_identity stBoth allOkInsert 2 5).1 = stBoth
    ∧ Obs.notifyQueued ∉ (insert_identity stBoth allOkInsert 2 5).2.1 :=
  insert_identity_atomic_on_error stBoth allOkInsert 2 5 ServerError.invalidGroupId rfl

/-- C3: under a valid group id, a commitment that is neither the initial
leaf value nor `≥ p`, succeeding database and lock calls, and the
invariant that `leaves[next_leaf..]` all equal the initial leaf value,
`insert_identity` returns `DuplicateCommitment` if and only if the
commitment is in `leaves[0..next_leaf]` or in the pending table: the
search of the code over all leaves coincides with membership in the
populated prefix. -/
theorem insert_identity_duplicate_iff
    (st : AppState) (orc : InsertOracles) (g c : Nat)
    (hg : g = st.group_id) (hne : c ≠ st.initial_leaf_value)
    (hred : c < snark_scalar_field)
    (hq : orc.pendingQueryOk = true) (hl : orc.lockOk = true)
    (hinv : ∀ i, st.tree.next_leaf ≤ i →
        st.tree.merkle_tree.leaves.getD i st.initial_leaf_value = st.initial_leaf_value) :
    (insert_identity st orc g c).2.2 = Except.error ServerError.duplicateCommitment
      ↔ (c ∈ st.tree.merkle_tree.leaves.take st.tree.next_leaf ∨ c ∈ st.pending) := by
  unfold insert_identity
  rw [if_neg (by simp [hg]), if_neg hne,
      if_neg (by simp [identity_is_reduced, hred]), if_neg (by simp [hq])]
  by_cases hp : c ∈ st.pending
  · rw [if_pos hp]
    simp [hp]
  · rw [if_neg hp, if_neg (by simp [hl])]
    rcases hsome : positionOf c st.tree.merkle_tree.leaves with _ | i
    · have hnm : c ∉ st.tree.merkle_tree.leaves := positionOf_eq_none.mp hsome
      have hnt : c ∉ st.tree.merkle_tree.leaves.take st.tree.next_leaf :=
        fun hmem => hnm (List.take_subset _ _ hmem)
      by_cases h7 : orc.insertOk = false
      · rw [if_pos h7]; simp [hnt, hp]
      · rw [if_neg h7]; simp [hnt, hp]
    · obtain ⟨hlen, hget⟩ := positionOf_eq_some_getD hsome
      have hlt : i < st.tree.next_leaf := by
        by_contra hge
        push_neg at hge
        have h1 := hinv i hge
        rw [hget st.initial_leaf_value] at h1
        exact hne h1
      have hmem : c ∈ st.tree.merkle_tree.leaves.take st.tree.next_leaf :=
        getD_mem_take hlen hlt (hget 0)
      simp [hmem]

/-- Witness for C3 at a state whose populated prefix holds the
commitment. -/
theorem insert_identity_duplicate_iff_witness :
    (insert_identity stTreeOnly allOkInsert 1 7).2.2
      = Except.error ServerError.duplicateCommitment := by
  have hinv : ∀ i, stTreeOnly.tree.next_leaf ≤ i →
      stTreeOnly.tree.merkle_tree.leaves.getD i stTreeOnly.initial_leaf_value
        = stTreeOnly.initial_leaf_value := by
    intro i hi
    match i with
    | 0 => exact absurd hi (by decide)
    | 1 => rfl
    | 2 => rfl
    | 3 => rfl
    | n + 4 => rfl
  exact (insert_identity_duplicate_iff stTreeOnly allOkInsert 1 7 rfl (by decide)
      (by decide) rfl rfl hinv).mpr (Or.inl (by decide))

/-- C9: whenever the position search finds the commitment, the index is
a valid leaf index, so `proof` returns `Some` and `inclusion_proof`
never returns `IndexOutOfBounds`, for any input, oracle and well-formed
tree state. -/
theorem inclusion_proof_no_index_out_of_bounds
    (h : Nat → Nat → Nat) (st : AppState) (orc : InclusionOracles) (g c : Nat)
    (hwf : st.tree.merkle_tree.wellFormed) :
    (inclusion_proof h st orc g c).2 ≠ InclusionOutcome.err ServerError.indexOutOfBounds := by
  unfold inclusion_proof
  by_cases h1 : g ≠ st.group_id
  · rw [if_pos h1]; simp
  · rw [if_neg h1]
    by_cases h2 : c = st.initial_leaf_value
    · rw [if_pos h2]; simp
    · rw [if_neg h2]
      by_cases h3 : orc.lockOk = false
      · rw [if_pos h3]; simp
      · rw [if_neg h3]
        rcases hsome : positionOf c st.tree.merkle_tree.leaves with _ | i
        · by_cases h4 : orc.pendingQueryOk = false
          · rw [if_pos h4]; simp
          · rw [if_neg h4]
            by_cases h5 : c ∈ st.pending
            · rw [if_pos h5]; simp
            · rw [if_neg h5]; simp
        · obtain ⟨hlen, hget⟩ := positionOf_eq_some_getD hsome
          have hi : i < 2 ^ st.tree.merkle_tree.depth := by
            rw [MerkleTree.wellFormed] at hwf
            omega
          have hv := verify_proofAux h st.tree.merkle_tree i c hwf hi (hget 0)
          by_cases h6 : orc.rootValid = false <;>
            simp [MerkleTree.proof, hi, hv, h6]

/-- Witness for C9 at a concrete well-formed state. -/
theorem inclusion_proof_no_index_out_of_bounds_witness :
    (inclusion_proof hashW stTreeOnly allOkInclusion 1 7).2
      ≠ InclusionOutcome.err ServerError.indexOutOfBounds :=
  inclusion_proof_no_index_out_of_bounds hashW stTreeOnly allOkInclusion 1 7
    (by unfold MerkleTree.wellFormed; decide)

/-- C4: with a valid group id, a commitment different from the initial
leaf value, succeeding lock and database calls and a well-formed tree:
if the commitment is found among the leaves, `inclusion_proof` computes
the proof and root and returns `Proof{root, proof}` (response code 200)
when `assert_valid_root` succeeds and `RootMismatch` when it fails; if
it is not in the tree but is pending, it returns `Pending` (202); and
otherwise it returns `IdentityCommitmentNotFound`. -/
theorem inclusion_proof_characterization
    (h : Nat → Nat → Nat) (st : AppState) (orc : InclusionOracles) (g c : Nat)
    (hg : g = st.group_id) (hne : c ≠ st.initial_leaf_value)
    (hlock : orc.lockOk = true) (hdb : orc.pendingQueryOk = true)
    (hwf : st.tree.merkle_tree.wellFormed) :
    (∀ i, positionOf c st.tree.merkle_tree.leaves = some i →
        (orc.rootValid = true →
          (inclusion_proof h st orc g c).2
              = InclusionOutcome.ok
                  (InclusionProofResponse.proof (MerkleTree.root h st.tree.merkle_tree)
                    (proofAux h st.tree.merkle_tree.depth st.tree.merkle_tree.leaves i))
          ∧ to_response_code
                (InclusionProofResponse.proof (MerkleTree.root h st.tree.merkle_tree)
                  (proofAux h st.tree.merkle_tree.depth st.tree.merkle_tree.leaves i)) = 200)
        ∧ (orc.rootValid = false →
          (inclusion_proof h st orc g c).2 = InclusionOutcome.err ServerError.rootMismatch))
    ∧ (positionOf c st.tree.merkle_tree.leaves = none →
        (c ∈ st.pending →
          (inclusion_proof h st orc g c).2 = InclusionOutcome.ok InclusionProofResponse.pending
          ∧ to_response_code InclusionProofResponse.pending = 202)
        ∧ (c ∉ st.pending →
          (inclusion_proof h st orc g c).2
            = InclusionOutcome.err ServerError.identityCommitmentNotFound)) := by
  have hbase : ∀ r, (inclusion_proof h st orc g c).2 = r ↔
      ((match positionOf c st.tree.merkle_tree.leaves with
        | some identity_index =>
            match MerkleTree.proof h st.tree.merkle_tree identity_index with
            | none => ([Obs.readTreeLeaves], InclusionOutcome.err ServerError.indexOutOfBounds)
            | some pf =>
                if MerkleTree.verify h st.tree.merkle_tree c pf = false then
                  ([Obs.readTreeLeaves], InclusionOutcome.panicked
                    "Proof does not verify locally.")
                else if orc.rootValid = false then
                  ([Obs.readTreeLeaves], InclusionOutcome.err ServerError.rootMismatch)
                else
                  ([Obs.readTreeLeaves], InclusionOutcome.ok
                    (InclusionProofResponse.proof (MerkleTree.root h st.tree.merkle_tree) pf))
        | none =>
            if orc.pendingQueryOk = false then
              ([Obs.readTreeLeaves, Obs.queryPendingExists],
                InclusionOutcome.err ServerError.dbError)
            else if c ∈ st.pending then
              ([Obs.readTreeLeaves, Obs.queryPendingExists],
                InclusionOutcome.ok InclusionProofResponse.pending)
            else
              ([Obs.readTreeLeaves, Obs.queryPendingExists],
                InclusionOutcome.err ServerError.identityCommitmentNotFound)) :
        List Obs × InclusionOutcome).2 = r := by
    intro r
    unfold inclusion_proof
    rw [if_neg (by simp [hg]), if_neg hne, if_neg (by simp [hlock])]
  constructor
  · intro i hsome
    obtain ⟨hlen, hget⟩ := positionOf_eq_some_getD hsome
    have hi : i < 2 ^ st.tree.merkle_tree.depth := by
      rw [MerkleTree.wellFormed] at hwf
      omega
    have hv := verify_proofAux h st.tree.merkle_tree i c hwf hi (hget 0)
    constructor
    · intro hroot
      refine ⟨?_, rfl⟩
      rw [hbase]
      simp [hsome, MerkleTree.proof, hi, hv, hroot]
    · intro hroot
      rw [hbase]
      simp [hsome, MerkleTree.proof, hi, hv, hroot]
  · intro hnone
    constructor
    · intro hp
      refine ⟨?_, rfl⟩
      rw [hbase]
      simp [hnone, hdb, hp]
    · intro hp
      rw [hbase]
      simp [hnone, hdb, hp]

/-- Witness for C4: a committed leaf yields its proof and root with a
valid on-chain root. -/
theorem inclusion_proof_characterization_witness :
    (inclusion_proof hashW stTreeOnly allOkInclusion 1 7).2
      = InclusionOutcome.ok
          (InclusionProofResponse.proof (MerkleTree.root hashW stTreeOnly.tree.merkle_tree)
            (proofAux hashW stTreeOnly.tree.merkle_tree.depth
              stTreeOnly.tree.merkle_tree.leaves 0)) :=
  (((inclusion_proof_characterization hashW stTreeOnly allOkInclusion 1 7 rfl (by decide)
      rfl rfl (by unfold MerkleTree.wellFormed; decide)).1 0 (by decide)).1 rfl).1

theorem load_loop_attempt_count (outcome : Nat → SubResult) (step : Nat) :
    ∀ (n idx count : Nat), 3 ≤ count + n →
      ((load_loop outcome step idx count).1.count RecoveryAction.attempt) ≤ n := by
  intro n
  induction n with
  | zero =>
      intro idx count h3
      rw [load_loop.eq_def]
      simp [show 3 ≤ count from by omega]
  | succ m ih =>
      intro idx count h3
      rw [load_loop.eq_def]
      by_cases hc : 3 ≤ count
      · simp [hc]
      · rw [dif_neg hc]
        have hrec := ih (idx + 1) (count + 1) (by omega)
        cases houtcome : outcome idx <;>
          simp [List.count_append, List.count_cons] <;>
          split_ifs <;>
          simp [List.count_singleton] <;>
          omega

/-- C2 (amended): `load_initial_events` attempts
`process_initial_events` at most three times; after one `RootMismatch`
it calls `delete_most_recent_cached_events` with
`cache_recovery_step_size` before the second attempt, after two it
calls `wipe_cache` before the third, and a third `RootMismatch` makes
it return the `RootMismatch` error; it returns `Ok` as soon as any
attempt succeeds, and any other error is returned immediately without a
retry.  `App::new`, however, discards the result of
`load_initial_events` in its select arm (src/app.rs line 165), so even
after a third `RootMismatch` startup proceeds to the health check,
subscriber start and committer start, for every load result. -/
theorem load_initial_events_retry_protocol (outcome : Nat → SubResult) (step : Nat) :
    ((load_initial_events outcome step).1.count RecoveryAction.attempt ≤ 3)
    ∧ (outcome 0 = SubResult.ok →
        load_initial_events outcome step = ([.attempt], .ok))
    ∧ (∀ e, outcome 0 = SubResult.other e →
        load_initial_events outcome step = ([.attempt], .otherErr e))
    ∧ (outcome 0 = SubResult.rootMismatch →
        (outcome 1 = SubResult.ok →
          load_initial_events outcome step
            = ([.attempt, .deleteRecent step, .attempt], .ok))
        ∧ (∀ e, outcome 1 = SubResult.other e →
          load_initial_events outcome step
            = ([.attempt, .deleteRecent step, .attempt], .otherErr e))
        ∧ (outcome 1 = SubResult.rootMismatch →
            (outcome 2 = SubResult.ok →
              load_initial_events outcome step
                = ([.attempt, .deleteRecent step, .attempt, .wipe, .attempt], .ok))
            ∧ (∀ e, outcome 2 = SubResult.other e →
              load_initial_events outcome step
                = ([.attempt, .deleteRecent step, .attempt, .wipe, .attempt], .otherErr e))
            ∧ (outcome 2 = SubResult.rootMismatch →
              load_initial_events outcome step
                = ([.attempt, .deleteRecent step, .attempt, .wipe, .attempt],
                    .rootMismatchErr))))
    ∧ (∀ loadResult, app_new_startup false loadResult
        = ([StartupStep.checkHealth, StartupStep.subscriberStart, StartupStep.committerStart],
            StartupResult.ok)) := by
  refine ⟨load_loop_attempt_count outcome step 3 0 0 (by omega), ?_, ?_, ?_, fun _ => rfl⟩
  · intro h0
    unfold load_initial_events
    rw [load_loop.eq_def]
    simp [h0]
  · intro e h0
    unfold load_initial_events
    rw [load_loop.eq_def]
    simp [h0]
  · intro h0
    refine ⟨?_, ?_, ?_⟩
    · intro h1
      unfold load_initial_events
      rw [load_loop.eq_def]
      simp only [h0]
      rw [load_loop.eq_def]
      simp [h1]
    · intro e h1
      unfold load_initial_events
      rw [load_loop.eq_def]
      simp only [h0]
      rw [load_loop.eq_def]
      simp [h1]
    · intro h1
      refine ⟨?_, ?_, ?_⟩
      · intro h2
        unfold load_initial_events
        rw [load_loop.eq_def]
        simp only [h0]
        rw [load_loop.eq_def]
        simp only [h1]
        rw [load_loop.eq_def]
        simp [h2]
      · intro e h2
        unfold load_initial_events
        rw [load_loop.eq_def]
        simp only [h0]
        rw [load_loop.eq_def]
        simp only [h1]
        rw [load_loop.eq_def]
        simp [h2]
      · intro h2
        unfold load_initial_events
        rw [load_loop.eq_def]
        simp only [h0]
        rw [load_loop.eq_def]
        simp only [h1]
        rw [load_loop.eq_def]
        simp [h2]
        rw [load_loop.eq_def]
        simp

/-- Witness for C2: three consecutive root mismatches produce the
delete-then-wipe recovery trace and a final `RootMismatch` error. -/
theorem load_initial_events_retry_protocol_witness :
    load_initial_events (fun _ => SubResult.rootMismatch) 7
      = ([.attempt, .deleteRecent 7, .attempt, .wipe, .attempt], .rootMismatchErr) :=
  ((((load_initial_events_retry_protocol (fun _ => SubResult.rootMismatch) 7).2.2.2.1
      rfl).2.2 rfl).2.2 rfl)

/-- Counterexample to C2 as stated: its "(failing startup)" is false.
At a run with three consecutive `RootMismatch` attempts,
`load_initial_events` does return the `RootMismatch` error, yet the
startup phase of `App::new` — whose select arm discards that result
(src/app.rs line 165) — still performs the health check, subscriber
start and committer start and returns successfully. -/
theorem load_initial_events_error_does_not_fail_startup :
    load_initial_events (fun _ => SubResult.rootMismatch) 7
      = ([.attempt, .deleteRecent 7, .attempt, .wipe, .attempt], .rootMismatchErr)
    ∧ app_new_startup false LoadResult.rootMismatchErr
      = ([StartupStep.checkHealth, StartupStep.subscriberStart, StartupStep.committerStart],
          StartupResult.ok) := by
  refine ⟨?_, rfl⟩
  unfold load_initial_events
  rw [load_loop.eq_def]
  simp only []
  rw [load_loop.eq_def]
  simp only []
  rw [load_loop.eq_def]
  simp
  rw [load_loop.eq_def]
  simp
